import Mathlib

/-!
Verification of the dahua-mcp camera gateway core: the response codec
(`utils.py`), the camera registry (`dahua_client.py`), the transport
auth-fallback state machine, and the three-step log-search flow
(`dahua_tools.py`), shallowly embedded in Lean 4.
-/

namespace DahuaMCP

/-! ## Python string primitives used by the source -/

/-- Whitespace characters recognised by Python's `str.strip()` (ASCII range,
which covers every string the codec is applied to). -/
def isPySpace (c : Char) : Bool :=
  c = ' ' || c = '\t' || c = '\n' || c = '\r' || c = '\x0b' || c = '\x0c'

/-- Model of Python `str.strip()`: drop leading and trailing whitespace. -/
def pyStrip (s : String) : String :=
  String.mk (((s.data.dropWhile isPySpace).reverse.dropWhile isPySpace).reverse)

/-- Helper for `pySplitlines`: walks the character list, accumulating the
current line (reversed) and emitting a line at each line break.
Recognises the line breaks `\n`, `\r\n` and `\r`. -/
def splitlinesAux : List Char → List Char → List String
  | [], acc => if acc.isEmpty then [] else [String.mk acc.reverse]
  | '\r' :: '\n' :: rest, acc => String.mk acc.reverse :: splitlinesAux rest []
  | '\r' :: rest, acc => String.mk acc.reverse :: splitlinesAux rest []
  | '\n' :: rest, acc => String.mk acc.reverse :: splitlinesAux rest []
  | c :: rest, acc => splitlinesAux rest (c :: acc)

/-- Model of Python `str.splitlines()` for the line breaks `\n`, `\r\n`, `\r`. -/
def pySplitlines (s : String) : List String :=
  splitlinesAux s.data []

/-- Model of Python `str.split("=", 1)` restricted to its two outcomes: `none`
when the character list has no `=` (Python returns a one-element list there),
otherwise the parts before and after the first `=`. -/
def splitFirstEq : List Char → Option (List Char × List Char)
  | [] => none
  | c :: cs =>
    if c = '=' then some ([], cs)
    else
      match splitFirstEq cs with
      | none => none
      | some (k, v) => some (c :: k, v)

/-- Model of Python `str.casefold()` / `str.lower()` on the ASCII strings the
codec compares (maps each character to lower case). -/
def pyCasefold (s : String) : String :=
  String.mk (s.data.map Char.toLower)

/-- Boolean prefix test on character lists (model of `str.startswith`). -/
def listIsPref : List Char → List Char → Bool
  | [], _ => true
  | _ :: _, [] => false
  | a :: as, b :: bs => a = b && listIsPref as bs

/-- Model of Python's substring test `needle in haystack`. -/
def containsSub (hay needle : List Char) : Bool :=
  match hay with
  | [] => needle.isEmpty
  | _ :: rest => listIsPref needle hay || containsSub rest needle

/-! ## Python `dict` model

The source stores parse results and the camera registry in `dict`s, whose
insertion semantics (replace in place on an existing key, append on a new
key, keys in first-insertion order) we model on association lists. -/

/-- Python `dict` assignment `m[k] = v` on an association list. -/
def dictInsert {α : Type} (m : List (String × α)) (k : String) (v : α) :
    List (String × α) :=
  match m with
  | [] => [(k, v)]
  | (k0, v0) :: rest =>
    if k0 = k then (k, v) :: rest else (k0, v0) :: dictInsert rest k v

/-- Key list of an association list (Python `dict.keys()` order). -/
def dictKeys {α : Type} (m : List (String × α)) : List String :=
  m.map Prod.fst

/-- Lookup in an association list (Python `k in m` / `m[k]`). -/
def dictLookup {α : Type} : List (String × α) → String → Option α
  | [], _ => none
  | (k0, v0) :: rest, k => if k0 = k then some v0 else dictLookup rest k

/-! ## Response codec (`utils.py`) -/

/-- Truthy strings of `utils.TRUTHY_VALUES`. -/
def TRUTHY_VALUES : List String := ["1", "true", "yes", "on"]

/-- Embedding of `utils.parse_bool`: `None` yields the default, otherwise the
stripped, casefolded string is tested against `TRUTHY_VALUES`. -/
def parse_bool (val : Option String) (default : Bool) : Bool :=
  match val with
  | none => default
  | some s => TRUTHY_VALUES.contains (pyCasefold (pyStrip s))

/-- Embedding of the prefix-stripping step of `utils.parse_dahua_response`:
the loop over `("table.", "status.")` strips the first matching noise prefix
and breaks. -/
def stripNoise (key : String) : String :=
  if listIsPref "table.".data key.data then String.mk (key.data.drop 6)
  else if listIsPref "status.".data key.data then String.mk (key.data.drop 7)
  else key

/-- Embedding of one iteration of the line loop of
`utils.parse_dahua_response`: strip the line, skip it when blank, split on
the first `=` (noise prefix stripped from the key), else store the line as
both key and value. `none` means the line contributes no entry. -/
def parseLine (line : String) : Option (String × String) :=
  let l := pyStrip line
  if l = "" then none
  else
    match splitFirstEq l.data with
    | some (k, v) => some (stripNoise (String.mk k), String.mk v)
    | none => some (l, l)

/-- Embedding of `utils.parse_dahua_response`: fold the line loop over
`text.strip().splitlines()`, accumulating into a Python dict. -/
def parse_dahua_response (text : String) : List (String × String) :=
  (pySplitlines (pyStrip text)).foldl
    (fun result line =>
      match parseLine line with
      | none => result
      | some (k, v) => dictInsert result k v)
    []

/-! ## Reference parser built from the specification's words (for C6)

The spec describes `parseResponse` declaratively: per-line entries, later
duplicate keys overwrite earlier ones, insertion order follows line order
(first occurrence).  We formalise that reading independently of the dict
fold: the key list is the first-occurrence deduplication of the line keys,
and each key maps to the value of its *last* occurrence. -/

/-- Line handling exactly as claim C6 words it: trim, skip blanks, split at
the first `=` with the left side as the key, bare lines stored as both key
and value.  (No noise-prefix stripping — C6 does not mention it.) -/
def lineEntryClaim (line : String) : Option (String × String) :=
  let l := pyStrip line
  if l = "" then none
  else
    match splitFirstEq l.data with
    | some (k, v) => some (String.mk k, String.mk v)
    | none => some (l, l)

/-- Line handling of the amended C6: as `lineEntryClaim`, but with one
noise prefix stripped from the key of a `key=value` line. -/
def lineEntryAmended (line : String) : Option (String × String) :=
  match lineEntryClaim line with
  | none => none
  | some (k, v) =>
    match splitFirstEq (pyStrip line).data with
    | some _ => some (stripNoise k, v)
    | none => some (k, v)

/-- Value of the last occurrence of a key in a pair list ("later duplicate
keys overwrite earlier ones"). -/
def lookupLast : List (String × String) → String → Option String
  | [], _ => none
  | (k0, v0) :: rest, k =>
    match lookupLast rest k with
    | some v => some v
    | none => if k0 = k then some v0 else none

/-- Append a key if it is not present yet (keeps first-occurrence order). -/
def insKey (ks : List String) (k : String) : List String :=
  if k ∈ ks then ks else ks ++ [k]

/-- Keys of a pair list in first-occurrence order. -/
def firstKeys (pairs : List (String × String)) : List String :=
  pairs.foldl (fun ks p => insKey ks p.1) []

/-- Collapse a pair list the way the spec describes the result: one entry per
key at its first-occurrence position, carrying the last value seen. -/
def collapseSpec (pairs : List (String × String)) : List (String × String) :=
  (firstKeys pairs).filterMap (fun k => (lookupLast pairs k).map (fun v => (k, v)))

/-- Claim C6's reference definition of `parseResponse`, literally as stated
(no noise-prefix stripping). -/
def parseResponseClaim (text : String) : List (String × String) :=
  collapseSpec ((pySplitlines (pyStrip text)).filterMap lineEntryClaim)

/-- The amended reference definition of `parseResponse`: C6's reference with
one noise prefix stripped from the key of each `key=value` line. -/
def parseResponseAmended (text : String) : List (String × String) :=
  collapseSpec ((pySplitlines (pyStrip text)).filterMap lineEntryAmended)

/-! ## Data model (`models.py`) and registry (`dahua_client.py`) -/

/-- Embedding of `models.CameraConfig` (pydantic model). -/
structure CameraConfig where
  name : String
  host : String
  port : Nat
  username : String
  password : String
  verify_ssl : Bool
  type : String
deriving DecidableEq

/-- Embedding of the fields of `models.DahuaConfig` consumed by
`DahuaCameraManager` (the remaining fields configure middleware outside the
registry). -/
structure DahuaConfig where
  cameras : List CameraConfig
  timeout : Nat
deriving DecidableEq

/-- Embedding of a constructed `DahuaCamera` (its `__init__` state: the
config, the timeout, and the derived base URL). -/
structure DahuaCamera where
  config : CameraConfig
  timeout : Nat
  base_url : String
deriving DecidableEq

/-- Embedding of `DahuaCamera.__init__`: derives the base URL, `https` when
the port is 443, else `http`. -/
def mkDahuaCamera (config : CameraConfig) (timeout : Nat) : DahuaCamera :=
  ⟨config, timeout,
    (if config.port = 443 then "https" else "http") ++ "://" ++ config.host
      ++ ":" ++ toString config.port⟩

/-- Embedding of `DahuaCameraManager.__init__`: the `_cameras` dict, filled
with one `DahuaCamera` per configured camera, keyed by name. -/
def managerCameras (cfg : DahuaConfig) : List (String × DahuaCamera) :=
  cfg.cameras.foldl
    (fun m c => dictInsert m c.name (mkDahuaCamera c cfg.timeout)) []

/-- Model of Python `", ".join(strings)`. -/
def joinComma : List String → String
  | [] => ""
  | [s] => s
  | s :: rest => s ++ ", " ++ joinComma rest

/-- Code-point comparison of characters (Python string ordering compares
code points). -/
def charLt (a b : Char) : Bool :=
  a.toNat < b.toNat

/-- Lexicographic code-point order on character lists, the order Python
`sorted` uses for strings. -/
def listLexLe : List Char → List Char → Bool
  | [], _ => true
  | _ :: _, [] => false
  | a :: as, b :: bs =>
    if charLt a b then true
    else if charLt b a then false
    else listLexLe as bs

/-- Lexicographic code-point order on strings. -/
def strLe (a b : String) : Bool :=
  listLexLe a.data b.data

/-- Insert a string into an already sorted list, keeping it sorted. -/
def insertSorted (s : String) : List String → List String
  | [] => [s]
  | t :: ts => if strLe s t then s :: t :: ts else t :: insertSorted s ts

/-- Model of Python `sorted(strings)` (ascending lexicographic). -/
def pySorted (l : List String) : List String :=
  l.foldr insertSorted []

/-- Outcome of `DahuaCameraManager.get_camera`: the camera, or the raised
`ValueError` message. -/
inductive CameraLookup where
  | found (cam : DahuaCamera)
  | notFound (msg : String)
deriving DecidableEq

/-- Embedding of `DahuaCameraManager.get_camera`: exact dict lookup; on a
miss, raises with a message listing the configured names, sorted. -/
def get_camera (cfg : DahuaConfig) (name : String) : CameraLookup :=
  match dictLookup (managerCameras cfg) name with
  | some cam => .found cam
  | none =>
    .notFound ("Camera '" ++ name ++ "' not found. Available cameras: "
      ++ joinComma (pySorted (dictKeys (managerCameras cfg))))

/-- Shape of one `list_cameras` entry: exactly the keys `name`, `host`,
`port`. -/
structure CameraListing where
  name : String
  host : String
  port : Nat
deriving DecidableEq

/-- Embedding of `DahuaCameraManager.list_cameras`: one `{name, host, port}`
record per dict value, in dict order. -/
def list_cameras (cfg : DahuaConfig) : List CameraListing :=
  (managerCameras cfg).map
    (fun p => ⟨p.2.config.name, p.2.config.host, p.2.config.port⟩)

/-- Embedding of `DahuaCameraManager.close_all`, instrumented with a failure
oracle: `fails n = true` means `close()` on the camera registered under `n`
raises.  The plain `for` loop propagates the first exception, so the result
records the propagated failure (if any) and the names whose close was
attempted, in order. -/
def close_all (fails : String → Bool) :
    List (String × DahuaCamera) → Option String × List String
  | [] => (none, [])
  | (n, _) :: rest =>
    if fails n then (some n, [n])
    else
      let r := close_all fails rest
      (r.1, n :: r.2)

/-! ## Transport auth-fallback state machine

The snapshot's `dahua_client.py` carries only the Digest-mode client; the
fallback members `_get`, `_use_basic_auth` and `_recreate_client_with_basic`
exercised by `tests/test_client.py` are not in it.  The state machine below
is therefore modelled from the spec (and checked against those tests). -/

/-- Authentication scheme of the underlying HTTP client. -/
inductive AuthScheme where
  | digest
  | basic
deriving DecidableEq

/-- Mutable per-transport state: the origin it talks to, the
`_use_basic_auth` flag, and whether a client object currently exists. -/
structure TransportState where
  origin : String
  useBasic : Bool
  connected : Bool
deriving DecidableEq

/-- Scheme the current (or next-created) client authenticates with. -/
def currentScheme (s : TransportState) : AuthScheme :=
  if s.useBasic then .basic else .digest

/-- Modelled from the spec: `_ensure_client` lazily creates the connection,
with credentials chosen by the current auth flag, against the stored
origin. -/
def ensureClient (s : TransportState) : TransportState :=
  if s.connected then s else ⟨s.origin, s.useBasic, true⟩

/-- Modelled from the spec: closing releases the connection; the auth flag
is untouched. -/
def closeTransport (s : TransportState) : TransportState :=
  ⟨s.origin, s.useBasic, false⟩

/-- Errors a request can surface: terminal authentication failure (carrying
the HTTP status) or any other non-2xx status. -/
inductive ReqError where
  | auth (status : Nat)
  | httpStatus (status : Nat)
deriving DecidableEq

/-- Numeric 2xx test. -/
def is2xx (code : Nat) : Bool :=
  200 ≤ code && code < 300

/-- Modelled from the spec: the `_get` primitive missing from the snapshot
(only `tests/test_client.py` references it).  The environment `respond`
gives the HTTP status the camera answers to a request under each scheme.
Returns the outcome, the successor state, and the trace of attempts (the
scheme of each HTTP request issued).  A 401 in Digest mode discards the
connection, recreates it with Basic credentials against the same origin and
retries once; a 401 in Basic mode is terminal; any other non-2xx status is
surfaced unchanged. -/
def transportGet (respond : AuthScheme → Nat) (s : TransportState) :
    (Except ReqError Nat) × TransportState × List AuthScheme :=
  let s1 := ensureClient s
  let code := respond (currentScheme s1)
  if code = 401 then
    if s1.useBasic then
      (.error (.auth 401), s1, [currentScheme s1])
    else
      let s2 : TransportState := ⟨s1.origin, true, true⟩
      let code2 := respond .basic
      if code2 = 401 then (.error (.auth 401), s2, [.digest, .basic])
      else if is2xx code2 then (.ok code2, s2, [.digest, .basic])
      else (.error (.httpStatus code2), s2, [.digest, .basic])
  else if is2xx code then (.ok code, s1, [currentScheme s1])
  else (.error (.httpStatus code), s1, [currentScheme s1])

/-- Run a sequence of requests (each with its own camera behaviour),
threading the transport state. -/
def runRequests (responds : List (AuthScheme → Nat)) (s : TransportState) :
    TransportState :=
  responds.foldl (fun st r => (transportGet r st).2.1) s

/-! ## Three-step log search (`dahua_tools.search_logs`) -/

/-- Embedding of the token-extraction loop of `search_logs`: the first line
of the stripped `startFind` response that contains `token` (case-folded) and
an `=` yields the stripped text after the first `=`. -/
def extractToken (startResp : String) : Option String :=
  match (pySplitlines (pyStrip startResp)).find?
      (fun line => containsSub (pyCasefold line).data "token".data
        && line.data.contains '=') with
  | none => none
  | some line =>
    match splitFirstEq line.data with
    | some (_, v) => some (pyStrip (String.mk v))
    | none => none

/-- Result of `search_logs` as seen by its caller. -/
inductive LogSearchResult where
  | noToken (error : String) (raw : String)
  | entries (m : List (String × String))
  | failed (msg : String)
deriving DecidableEq

/-- Embedding of the `search_logs` flow after `startFind`, with the camera
modelled by oracles: `doFind` maps the token to the parsed `doFind` result
or a raised error, `stopFind` maps it to the cleanup outcome.  `if not
token` treats a missing and an empty token alike; the `stopFind` call is
wrapped in `contextlib.suppress(Exception)`, so its outcome is discarded;
an error raised by `doFind` is caught by the surrounding handler. -/
def searchLogs (startResp : String)
    (doFind : String → Except String (List (String × String)))
    (stopFind : String → Except String Unit) : LogSearchResult :=
  match extractToken startResp with
  | none => .noToken "Failed to start log search — no token returned" startResp
  | some t =>
    if t = "" then
      .noToken "Failed to start log search — no token returned" startResp
    else
      match doFind t with
      | .error e => .failed e
      | .ok found =>
        let _ := stopFind t
        .entries found

/-- Folding Python dict assignment over a pair list (the accumulation
pattern of `parse_dahua_response`). -/
def dictFold {α : Type} (acc : List (String × α)) (pairs : List (String × α)) :
    List (String × α) :=
  pairs.foldl (fun r p => dictInsert r p.1 p.2) acc

/-- Folding `insKey` over keys (the key-order skeleton of `dictFold`). -/
def keysFold (init : List String) (ks : List String) : List String :=
  ks.foldl insKey init

/-- Camera configs that agree on everything except username and password. -/
def camEqButCreds (c c2 : CameraConfig) : Bool :=
  c.name == c2.name && c.host == c2.host && c.port == c2.port
    && c.verify_ssl == c2.verify_ssl && c.type == c2.type

/-- Camera lists of equal length that agree pointwise on everything except
usernames and passwords. -/
def camsEqButCreds : List CameraConfig → List CameraConfig → Bool
  | [], [] => true
  | c :: cs, c2 :: cs2 => camEqButCreds c c2 && camsEqButCreds cs cs2
  | _, _ => false

/-- Configurations that differ only in usernames and passwords. -/
def cfgEqButCreds (cfg cfg2 : DahuaConfig) : Bool :=
  cfg.timeout == cfg2.timeout && camsEqButCreds cfg.cameras cfg2.cameras

/-- Projection of a registry to what `list_cameras` can observe: the key and
the (name, host, port) listing of each entry. -/
def regProj (m : List (String × DahuaCamera)) :
    List (String × CameraListing) :=
  m.map (fun p => (p.1, ⟨p.2.config.name, p.2.config.host, p.2.config.port⟩))

/-- Concrete two-camera configuration used as a witness fixture. -/
def cfgW : DahuaConfig :=
  ⟨[⟨"front-door", "192.168.1.10", 80, "admin", "secret1", false, "camera"⟩,
    ⟨"back-yard", "192.168.1.11", 443, "admin", "secret2", true, "camera"⟩], 20⟩

/-- The witness fixture with different credentials, otherwise identical. -/
def cfgW2 : DahuaConfig :=
  ⟨[⟨"front-door", "192.168.1.10", 80, "root", "other1", false, "camera"⟩,
    ⟨"back-yard", "192.168.1.11", 443, "root", "other2", true, "camera"⟩], 20⟩

/-! ## Lemmas about the dict model -/

theorem dictLookup_insert {α : Type} (m : List (String × α)) (k k0 : String)
    (v : α) :
    dictLookup (dictInsert m k v) k0 =
      if k = k0 then some v else dictLookup m k0 := by
  induction m with
  | nil => simp [dictInsert, dictLookup]
  | cons p rest ih =>
    obtain ⟨k1, v1⟩ := p
    by_cases h1 : k1 = k
    · subst h1
      simp only [dictInsert, if_pos rfl, dictLookup]
      by_cases h2 : k1 = k0
      · simp [h2]
      · simp [h2]
    · simp only [dictInsert, if_neg h1, dictLookup]
      by_cases h2 : k1 = k0
      · subst h2
        have hne : ¬ k = k1 := fun h => h1 h.symm
        simp [dictLookup, if_neg hne]
      · simp [dictLookup, if_neg h2, ih]

theorem dictKeys_insert {α : Type} (m : List (String × α)) (k : String)
    (v : α) :
    dictKeys (dictInsert m k v) = insKey (dictKeys m) k := by
  induction m with
  | nil => simp [dictInsert, dictKeys, insKey]
  | cons p rest ih =>
    obtain ⟨k1, v1⟩ := p
    by_cases h1 : k1 = k
    · subst h1
      simp [dictInsert, dictKeys, insKey]
    · have hne : ¬ k = k1 := fun h => h1 h.symm
      simp only [dictInsert, if_neg h1, dictKeys, List.map_cons] at *
      rw [ih]
      by_cases h2 : k ∈ List.map Prod.fst rest
      · simp [insKey, h2, List.mem_cons, hne]
      · simp [insKey, h2, List.mem_cons, hne]

theorem mem_insKey (ks : List String) (k a : String) :
    a ∈ insKey ks k ↔ a ∈ ks ∨ a = k := by
  by_cases h : k ∈ ks
  · simp only [insKey, if_pos h]
    constructor
    · exact fun ha => Or.inl ha
    · rintro (ha | ha)
      · exact ha
      · exact ha ▸ h
  · simp [insKey, if_neg h]

theorem nodup_insKey (ks : List String) (k : String) (h : ks.Nodup) :
    (insKey ks k).Nodup := by
  by_cases hk : k ∈ ks
  · simpa [insKey, if_pos hk] using h
  · simp only [insKey, if_neg hk]
    simpa [List.nodup_append] using ⟨h, hk⟩

theorem dictLookup_eq_none_iff {α : Type} (m : List (String × α)) (k : String) :
    dictLookup m k = none ↔ k ∉ dictKeys m := by
  induction m with
  | nil => simp [dictLookup, dictKeys]
  | cons p rest ih =>
    obtain ⟨k1, v1⟩ := p
    by_cases h1 : k1 = k
    · subst h1
      simp [dictLookup, dictKeys]
    · have hne : ¬ k = k1 := fun h => h1 h.symm
      have hdk : dictKeys ((k1, v1) :: rest) = k1 :: dictKeys rest := rfl
      rw [dictLookup, if_neg h1, ih, hdk]
      simp [List.mem_cons, hne]

theorem dictFold_cons {α : Type} (acc : List (String × α)) (p : String × α)
    (pairs : List (String × α)) :
    dictFold acc (p :: pairs) = dictFold (dictInsert acc p.1 p.2) pairs := rfl

theorem dictLookup_dictFold (pairs : List (String × String))
    (acc : List (String × String)) (k : String) :
    dictLookup (dictFold acc pairs) k =
      match lookupLast pairs k with
      | some v => some v
      | none => dictLookup acc k := by
  induction pairs generalizing acc with
  | nil => simp [dictFold, lookupLast]
  | cons p rest ih =>
    obtain ⟨k1, v1⟩ := p
    rw [dictFold_cons, ih, lookupLast]
    cases hrest : lookupLast rest k with
    | some v => simp
    | none =>
      simp only [dictLookup_insert]
      by_cases h1 : k1 = k
      · simp [h1]
      · simp [h1]

theorem dictKeys_dictFold {α : Type} (pairs : List (String × α))
    (acc : List (String × α)) :
    dictKeys (dictFold acc pairs) = keysFold (dictKeys acc) (pairs.map Prod.fst) := by
  induction pairs generalizing acc with
  | nil => simp [dictFold, keysFold]
  | cons p rest ih =>
    rw [dictFold_cons, ih, dictKeys_insert]
    simp [keysFold]

theorem mem_keysFold (ks : List String) (init : List String) (a : String) :
    a ∈ keysFold init ks ↔ a ∈ init ∨ a ∈ ks := by
  induction ks generalizing init with
  | nil => simp [keysFold]
  | cons k rest ih =>
    have : keysFold init (k :: rest) = keysFold (insKey init k) rest := rfl
    rw [this, ih, mem_insKey]
    constructor
    · rintro ((h | h) | h)
      · exact Or.inl h
      · exact Or.inr (h ▸ List.mem_cons_self _ _)
      · exact Or.inr (List.mem_cons_of_mem _ h)
    · rintro (h | h)
      · exact Or.inl (Or.inl h)
      · rcases List.mem_cons.mp h with h | h
        · exact Or.inl (Or.inr h)
        · exact Or.inr h

theorem nodup_keysFold (ks : List String) (init : List String)
    (h : init.Nodup) : (keysFold init ks).Nodup := by
  induction ks generalizing init with
  | nil => exact h
  | cons k rest ih => exact ih (insKey init k) (nodup_insKey init k h)

theorem lookupLast_eq_none_iff (pairs : List (String × String)) (k : String) :
    lookupLast pairs k = none ↔ k ∉ pairs.map Prod.fst := by
  induction pairs with
  | nil => simp [lookupLast]
  | cons p rest ih =>
    obtain ⟨k1, v1⟩ := p
    rw [lookupLast]
    cases hrest : lookupLast rest k with
    | some v =>
      have hk : k ∈ rest.map Prod.fst := by
        by_contra hk
        rw [ih.mpr hk] at hrest
        cases hrest
      constructor
      · intro h
        cases h
      · intro h
        exact absurd (List.mem_cons_of_mem k1 hk) h
    | none =>
      have hk : k ∉ rest.map Prod.fst := ih.mp hrest
      by_cases h1 : k1 = k
      · subst h1
        simp
      · have hne : ¬ k = k1 := fun h => h1 h.symm
        simp [if_neg h1, List.mem_cons, hne, hk]

theorem dictLookup_filterMapAssoc (ks : List String)
    (f : String → Option String) (k0 : String) (h : ks.Nodup) :
    dictLookup (ks.filterMap (fun k => (f k).map (fun v => (k, v)))) k0 =
      if k0 ∈ ks then f k0 else none := by
  induction ks with
  | nil => simp [dictLookup]
  | cons k rest ih =>
    obtain ⟨hk, hrest⟩ := List.nodup_cons.mp h
    cases hf : f k with
    | none =>
      rw [List.filterMap_cons]
      simp only [hf, Option.map_none']
      rw [ih hrest]
      by_cases h0 : k0 = k
      · subst h0
        simp [hk, hf]
      · simp [List.mem_cons, h0]
    | some v =>
      rw [List.filterMap_cons]
      simp only [hf, Option.map_some']
      by_cases h0 : k0 = k
      · subst h0
        simp [dictLookup, hf]
      · have hne : ¬ k = k0 := fun h2 => h0 h2.symm
        rw [dictLookup, if_neg hne, ih hrest]
        simp [List.mem_cons, h0]

theorem dictKeys_filterMapAssoc (ks : List String)
    (f : String → Option String) (h : ∀ k ∈ ks, (f k).isSome = true) :
    dictKeys (ks.filterMap (fun k => (f k).map (fun v => (k, v)))) = ks := by
  induction ks with
  | nil => rfl
  | cons k rest ih =>
    cases hf : f k with
    | none =>
      have := h k (List.mem_cons_self k rest)
      rw [hf] at this
      cases this
    | some v =>
      rw [List.filterMap_cons]
      simp only [hf, Option.map_some']
      have : dictKeys ((k, v) :: rest.filterMap
          (fun k => (f k).map (fun v => (k, v)))) =
          k :: dictKeys (rest.filterMap (fun k => (f k).map (fun v => (k, v)))) := rfl
      rw [this, ih (fun x hx => h x (List.mem_cons_of_mem k hx))]

theorem assoc_ext (m1 : List (String × String)) :
    ∀ m2 : List (String × String), (dictKeys m1).Nodup →
      dictKeys m1 = dictKeys m2 →
      (∀ k, dictLookup m1 k = dictLookup m2 k) → m1 = m2 := by
  induction m1 with
  | nil =>
    intro m2 _ hkeys _
    cases m2 with
    | nil => rfl
    | cons q rest2 => simp [dictKeys] at hkeys
  | cons p rest ih =>
    intro m2 hnd hkeys hlook
    obtain ⟨k1, v1⟩ := p
    cases m2 with
    | nil => simp [dictKeys] at hkeys
    | cons q rest2 =>
      obtain ⟨k2, v2⟩ := q
      have hkk := hkeys
      simp only [dictKeys, List.map_cons, List.cons.injEq] at hkk
      obtain ⟨hk12, hrest⟩ := hkk
      subst hk12
      have hv := hlook k1
      simp [dictLookup] at hv
      subst hv
      have hnd1 : (k1 :: dictKeys rest).Nodup := hnd
      obtain ⟨hk1, hnd2⟩ := List.nodup_cons.mp hnd1
      have hk2 : k1 ∉ dictKeys rest2 := by
        show k1 ∉ List.map Prod.fst rest2
        rw [← hrest]
        exact hk1
      have htail : ∀ k, dictLookup rest k = dictLookup rest2 k := by
        intro k
        by_cases h0 : k1 = k
        · subst h0
          rw [(dictLookup_eq_none_iff rest k1).mpr hk1,
            (dictLookup_eq_none_iff rest2 k1).mpr hk2]
        · have := hlook k
          rw [dictLookup, if_neg h0, dictLookup, if_neg h0] at this
          exact this
      rw [ih rest2 hnd2 hrest htail]

theorem firstKeys_eq_keysFold (pairs : List (String × String)) :
    firstKeys pairs = keysFold [] (pairs.map Prod.fst) := by
  simp [firstKeys, keysFold, List.foldl_map]

theorem mem_firstKeys (pairs : List (String × String)) (k : String) :
    k ∈ firstKeys pairs ↔ k ∈ pairs.map Prod.fst := by
  rw [firstKeys_eq_keysFold, mem_keysFold]
  simp

theorem nodup_firstKeys (pairs : List (String × String)) :
    (firstKeys pairs).Nodup := by
  rw [firstKeys_eq_keysFold]
  exact nodup_keysFold _ [] List.nodup_nil

theorem lookupLast_isSome_of_mem_firstKeys (pairs : List (String × String))
    (k : String) (h : k ∈ firstKeys pairs) :
    (lookupLast pairs k).isSome = true := by
  cases hl : lookupLast pairs k with
  | some v => rfl
  | none =>
    exact absurd ((mem_firstKeys pairs k).mp h)
      ((lookupLast_eq_none_iff pairs k).mp hl)

theorem dictFold_eq_collapseSpec (pairs : List (String × String)) :
    dictFold [] pairs = collapseSpec pairs := by
  have hnd : (dictKeys (dictFold [] pairs)).Nodup := by
    rw [dictKeys_dictFold]
    exact nodup_keysFold _ _ List.nodup_nil
  apply assoc_ext _ _ hnd
  · rw [dictKeys_dictFold, collapseSpec,
      dictKeys_filterMapAssoc _ _ (lookupLast_isSome_of_mem_firstKeys pairs),
      firstKeys_eq_keysFold]
    rfl
  · intro k
    rw [dictLookup_dictFold, collapseSpec,
      dictLookup_filterMapAssoc _ _ _ (nodup_firstKeys pairs)]
    cases hl : lookupLast pairs k with
    | some v =>
      have hmem : k ∈ firstKeys pairs := by
        rw [mem_firstKeys]
        by_contra hm
        rw [(lookupLast_eq_none_iff pairs k).mpr hm] at hl
        cases hl
      simp [hmem, hl]
    | none =>
      have hm : k ∉ pairs.map Prod.fst := (lookupLast_eq_none_iff pairs k).mp hl
      have hmem : k ∉ firstKeys pairs := fun hc =>
        hm ((mem_firstKeys pairs k).mp hc)
      simp [hmem, dictLookup, hl]

theorem parseFold_eq (lines : List String) :
    ∀ acc : List (String × String),
      lines.foldl (fun result line =>
        match parseLine line with
        | none => result
        | some (k, v) => dictInsert result k v) acc
      = dictFold acc (lines.filterMap parseLine) := by
  induction lines with
  | nil => intro acc; rfl
  | cons l rest ih =>
    intro acc
    rw [List.foldl_cons, List.filterMap_cons]
    cases hl : parseLine l with
    | none => simp only []; exact ih acc
    | some kv =>
      obtain ⟨k, v⟩ := kv
      simp only []
      rw [dictFold_cons]
      exact ih (dictInsert acc k v)

theorem parseLine_eq_lineEntryAmended (line : String) :
    parseLine line = lineEntryAmended line := by
  unfold parseLine lineEntryAmended lineEntryClaim
  by_cases h : pyStrip line = ""
  · simp [h]
  · simp only [if_neg h]
    cases hs : splitFirstEq (pyStrip line).data with
    | none => simp
    | some kv =>
      obtain ⟨k, v⟩ := kv
      simp

theorem strMk_data (s : String) : String.mk s.data = s := rfl

theorem listIsPref_append (p l : List Char) : listIsPref p (p ++ l) = true := by
  induction p with
  | nil => rfl
  | cons c cs ih => simp [listIsPref, ih]

theorem stripNoise_table (k : String) : stripNoise ("table." ++ k) = k := by
  have h1 : listIsPref "table.".data ("table." ++ k).data = true := by
    rw [String.data_append]
    exact listIsPref_append _ _
  unfold stripNoise
  rw [h1]
  simp only [if_true]
  rw [String.data_append]
  have hlen : ("table.".data).length = 6 := rfl
  rw [← hlen, List.drop_left]

theorem stripNoise_status (k : String) : stripNoise ("status." ++ k) = k := by
  have h0 : listIsPref "table.".data ("status." ++ k).data = false := by
    rw [String.data_append]
    rfl
  have h1 : listIsPref "status.".data ("status." ++ k).data = true := by
    rw [String.data_append]
    exact listIsPref_append _ _
  unfold stripNoise
  rw [h0, h1]
  simp only [Bool.false_eq_true, if_false, if_true]
  rw [String.data_append]
  have hlen : ("status.".data).length = 7 := rfl
  rw [← hlen, List.drop_left]

theorem splitFirstEq_no_eq (ks vs : List Char) (h : ks.contains '=' = false) :
    splitFirstEq (ks ++ '=' :: vs) = some (ks, vs) := by
  induction ks with
  | nil => rfl
  | cons c cs ih =>
    have hc : ('=' == c) = false := by
      cases hcc : ('=' == c) with
      | false => rfl
      | true =>
        exfalso
        rw [List.contains_cons, hcc] at h
        cases h
    have hcs : cs.contains '=' = false := by
      rw [List.contains_cons, hc] at h
      simpa using h
    have hcne : ¬ c = '=' := by
      intro hcc
      rw [hcc] at hc
      simp at hc
    rw [List.cons_append, splitFirstEq]
    rw [if_neg hcne, ih hcs]

theorem char_eq_of_not_charLt (a b : Char) (h1 : charLt a b = false)
    (h2 : charLt b a = false) : a = b := by
  have n1 : ¬ a.toNat < b.toNat := by
    intro h
    rw [show charLt a b = decide (a.toNat < b.toNat) from rfl] at h1
    rw [decide_eq_true h] at h1
    cases h1
  have n2 : ¬ b.toNat < a.toNat := by
    intro h
    rw [show charLt b a = decide (b.toNat < a.toNat) from rfl] at h2
    rw [decide_eq_true h] at h2
    cases h2
  exact Char.ext (UInt32.ext (by
    have e1 : a.toNat = a.val.toNat := rfl
    have e2 : b.toNat = b.val.toNat := rfl
    omega))

theorem listLexLe_total (as : List Char) :
    ∀ bs, listLexLe as bs = true ∨ listLexLe bs as = true := by
  induction as with
  | nil => intro bs; exact Or.inl rfl
  | cons a as ih =>
    intro bs
    cases bs with
    | nil => exact Or.inr rfl
    | cons b bs =>
      by_cases h1 : charLt a b = true
      · left
        rw [listLexLe, h1]
        simp
      · by_cases h2 : charLt b a = true
        · right
          rw [listLexLe, h2]
          simp
        · have hab : a = b :=
            char_eq_of_not_charLt a b (Bool.not_eq_true _ ▸ h1)
              (Bool.not_eq_true _ ▸ h2)
          subst hab
          have hlt : charLt a a = false := by
            simp [charLt]
          rcases ih bs with h | h
          · left
            rw [listLexLe, hlt]
            simpa using h
          · right
            rw [listLexLe, hlt]
            simpa using h

theorem listLexLe_trans (as : List Char) :
    ∀ bs cs, listLexLe as bs = true → listLexLe bs cs = true →
      listLexLe as cs = true := by
  induction as with
  | nil => intro bs cs _ _; rfl
  | cons a as ih =>
    intro bs cs hab hbc
    cases bs with
    | nil => cases hab
    | cons b bs =>
      cases cs with
      | nil => cases hbc
      | cons c cs =>
        simp only [listLexLe] at hab hbc ⊢
        by_cases h1 : charLt a b = true
        · by_cases h2 : charLt b c = true
          · have hac : charLt a c = true := by
              simp only [charLt, decide_eq_true_eq] at h1 h2 ⊢
              omega
            simp [hac]
          · rw [Bool.not_eq_true] at h2
            by_cases h3 : charLt c b = true
            · rw [h2, h3] at hbc
              simp at hbc
            · rw [Bool.not_eq_true] at h3
              have heq : b = c := char_eq_of_not_charLt b c h2 h3
              subst heq
              simp [h1]
        · rw [Bool.not_eq_true] at h1
          by_cases h1b : charLt b a = true
          · rw [h1, h1b] at hab
            simp at hab
          · rw [Bool.not_eq_true] at h1b
            have heq : a = b := char_eq_of_not_charLt a b h1 h1b
            subst heq
            rw [h1] at hab
            simp only [Bool.false_eq_true, if_false] at hab
            by_cases h2 : charLt a c = true
            · simp [h2]
            · rw [Bool.not_eq_true] at h2
              rw [h2] at hbc ⊢
              simp only [Bool.false_eq_true, if_false] at hbc ⊢
              by_cases h3 : charLt c a = true
              · rw [h3] at hbc
                simp at hbc
              · rw [Bool.not_eq_true] at h3
                rw [h3] at hbc ⊢
                simp only [Bool.false_eq_true, if_false] at hbc ⊢
                exact ih bs cs hab hbc

theorem strLe_total (a b : String) : strLe a b = true ∨ strLe b a = true :=
  listLexLe_total a.data b.data

theorem strLe_trans (a b c : String) (h1 : strLe a b = true)
    (h2 : strLe b c = true) : strLe a c = true :=
  listLexLe_trans a.data b.data c.data h1 h2

theorem mem_insertSorted (s a : String) (l : List String) :
    a ∈ insertSorted s l ↔ a = s ∨ a ∈ l := by
  induction l with
  | nil => simp [insertSorted]
  | cons t ts ih =>
    rw [insertSorted]
    by_cases h : strLe s t = true
    · simp [h, List.mem_cons]
    · simp only [if_neg h, List.mem_cons, ih]
      tauto

theorem insertSorted_perm (s : String) (l : List String) :
    (insertSorted s l).Perm (s :: l) := by
  induction l with
  | nil => exact List.Perm.refl _
  | cons t ts ih =>
    rw [insertSorted]
    by_cases h : strLe s t = true
    · simp [h]
    · rw [if_neg h]
      exact (List.Perm.cons t ih).trans (List.Perm.swap s t ts)

theorem insertSorted_pairwise (s : String) (l : List String)
    (h : l.Pairwise (fun a b => strLe a b = true)) :
    (insertSorted s l).Pairwise (fun a b => strLe a b = true) := by
  induction l with
  | nil => simp [insertSorted]
  | cons t ts ih =>
    obtain ⟨ht, hts⟩ := List.pairwise_cons.mp h
    rw [insertSorted]
    by_cases hst : strLe s t = true
    · rw [if_pos hst]
      refine List.pairwise_cons.mpr ⟨?_, h⟩
      intro x hx
      rcases List.mem_cons.mp hx with hx | hx
      · exact hx ▸ hst
      · exact strLe_trans s t x hst (ht x hx)
    · rw [if_neg hst]
      have hts2 : strLe t s = true := by
        rcases strLe_total s t with h2 | h2
        · exact absurd h2 hst
        · exact h2
      refine List.pairwise_cons.mpr ⟨?_, ih hts⟩
      intro x hx
      rcases (mem_insertSorted s x ts).mp hx with hx | hx
      · exact hx ▸ hts2
      · exact ht x hx

theorem pySorted_perm (l : List String) : (pySorted l).Perm l := by
  induction l with
  | nil => exact List.Perm.refl _
  | cons x xs ih =>
    have : pySorted (x :: xs) = insertSorted x (pySorted xs) := rfl
    rw [this]
    exact (insertSorted_perm x (pySorted xs)).trans (List.Perm.cons x ih)

theorem pySorted_pairwise (l : List String) :
    (pySorted l).Pairwise (fun a b => strLe a b = true) := by
  induction l with
  | nil => simp [pySorted]
  | cons x xs ih =>
    exact insertSorted_pairwise x (pySorted xs) ih

theorem dictInsert_append {α : Type} (m : List (String × α)) (k : String)
    (v : α) (h : k ∉ dictKeys m) : dictInsert m k v = m ++ [(k, v)] := by
  induction m with
  | nil => rfl
  | cons p rest ih =>
    obtain ⟨k1, v1⟩ := p
    have h1 : ¬ k1 = k := fun he => h (by rw [← he]; exact List.mem_cons_self _ _)
    have h2 : k ∉ dictKeys rest := fun hm => h (List.mem_cons_of_mem _ hm)
    rw [dictInsert, if_neg h1, List.cons_append, ih h2]

theorem foldCameras_nodup (cams : List CameraConfig) (t : Nat) :
    ∀ acc : List (String × DahuaCamera),
      (cams.map CameraConfig.name).Nodup →
      (∀ c ∈ cams, c.name ∉ dictKeys acc) →
      cams.foldl (fun m c => dictInsert m c.name (mkDahuaCamera c t)) acc
        = acc ++ cams.map (fun c => (c.name, mkDahuaCamera c t)) := by
  induction cams with
  | nil =>
    intro acc _ _
    simp
  | cons c cs ih =>
    intro acc hnd hacc
    obtain ⟨hc, hnd2⟩ := List.nodup_cons.mp
      (show (c.name :: cs.map CameraConfig.name).Nodup from hnd)
    rw [List.foldl_cons,
      dictInsert_append acc c.name _ (hacc c (List.mem_cons_self _ _))]
    have hacc2 : ∀ c2 ∈ cs,
        c2.name ∉ dictKeys (acc ++ [(c.name, mkDahuaCamera c t)]) := by
      intro c2 hc2
      have hk1 : c2.name ∉ dictKeys acc := hacc c2 (List.mem_cons_of_mem _ hc2)
      have hk2 : ¬ c2.name = c.name := by
        intro he
        exact hc (he ▸ List.mem_map_of_mem CameraConfig.name hc2)
      have hkeys : dictKeys (acc ++ [(c.name, mkDahuaCamera c t)])
          = dictKeys acc ++ [c.name] := by
        simp [dictKeys]
      rw [hkeys]
      intro hmem
      rcases List.mem_append.mp hmem with hmem | hmem
      · exact hk1 hmem
      · exact hk2 (List.mem_singleton.mp hmem)
    rw [ih (acc ++ [(c.name, mkDahuaCamera c t)]) hnd2 hacc2]
    simp

theorem managerCameras_of_nodup (cfg : DahuaConfig)
    (h : (cfg.cameras.map CameraConfig.name).Nodup) :
    managerCameras cfg =
      cfg.cameras.map (fun c => (c.name, mkDahuaCamera c cfg.timeout)) := by
  have := foldCameras_nodup cfg.cameras cfg.timeout [] h (by simp [dictKeys])
  simpa [managerCameras] using this

theorem mem_foldCameras_keys (cams : List CameraConfig) (t : Nat) :
    ∀ (acc : List (String × DahuaCamera)) (k : String),
      k ∈ dictKeys (cams.foldl
        (fun m c => dictInsert m c.name (mkDahuaCamera c t)) acc)
        ↔ k ∈ dictKeys acc ∨ k ∈ cams.map CameraConfig.name := by
  induction cams with
  | nil =>
    intro acc k
    simp
  | cons c cs ih =>
    intro acc k
    rw [List.foldl_cons, ih, dictKeys_insert, mem_insKey]
    simp [List.mem_cons]
    tauto

theorem mem_managerKeys (cfg : DahuaConfig) (k : String) :
    k ∈ dictKeys (managerCameras cfg) ↔
      k ∈ cfg.cameras.map CameraConfig.name := by
  have := mem_foldCameras_keys cfg.cameras cfg.timeout [] k
  simpa [managerCameras, dictKeys] using this

theorem regProj_dictInsert (acc : List (String × DahuaCamera)) :
    ∀ acc2, regProj acc = regProj acc2 →
      ∀ (k : String) (v v2 : DahuaCamera),
        v.config.name = v2.config.name → v.config.host = v2.config.host →
        v.config.port = v2.config.port →
        regProj (dictInsert acc k v) = regProj (dictInsert acc2 k v2) := by
  induction acc with
  | nil =>
    intro acc2 hp k v v2 h1 h2 h3
    cases acc2 with
    | nil => simp [dictInsert, regProj, h1, h2, h3]
    | cons q rest2 => simp [regProj] at hp
  | cons p rest ih =>
    intro acc2 hp k v v2 h1 h2 h3
    cases acc2 with
    | nil => simp [regProj] at hp
    | cons q rest2 =>
      obtain ⟨k1, c1⟩ := p
      obtain ⟨k2, c2⟩ := q
      simp only [regProj, List.map_cons, List.cons.injEq, Prod.mk.injEq] at hp
      obtain ⟨⟨hk, hlist⟩, htail⟩ := hp
      subst hk
      by_cases hik : k1 = k
      · rw [dictInsert, dictInsert, if_pos hik, if_pos hik]
        simp only [regProj, List.map_cons]
        rw [h1, h2, h3]
        have htail2 : List.map
            (fun p => (p.1, (⟨p.2.config.name, p.2.config.host,
              p.2.config.port⟩ : CameraListing))) rest
            = List.map (fun p => (p.1, (⟨p.2.config.name, p.2.config.host,
              p.2.config.port⟩ : CameraListing))) rest2 := htail
        rw [htail2]
      · rw [dictInsert, dictInsert, if_neg hik, if_neg hik]
        have htl := ih rest2 htail k v v2 h1 h2 h3
        simp only [regProj, List.map_cons] at htl ⊢
        rw [hlist, htl]

theorem regProj_fold (cams : List CameraConfig) :
    ∀ (cams2 : List CameraConfig) (t t2 : Nat)
      (acc acc2 : List (String × DahuaCamera)),
      camsEqButCreds cams cams2 = true →
      regProj acc = regProj acc2 →
      regProj (cams.foldl
        (fun m c => dictInsert m c.name (mkDahuaCamera c t)) acc)
        = regProj (cams2.foldl
          (fun m c => dictInsert m c.name (mkDahuaCamera c t2)) acc2) := by
  induction cams with
  | nil =>
    intro cams2 t t2 acc acc2 hc hp
    cases cams2 with
    | nil => exact hp
    | cons c2 cs2 => cases hc
  | cons c cs ih =>
    intro cams2 t t2 acc acc2 hc hp
    cases cams2 with
    | nil => cases hc
    | cons c2 cs2 =>
      have hc2 := hc
      rw [camsEqButCreds, Bool.and_eq_true] at hc2
      obtain ⟨hcam, hcams⟩ := hc2
      simp only [camEqButCreds, Bool.and_eq_true, beq_iff_eq] at hcam
      obtain ⟨⟨⟨⟨hname, hhost⟩, hport⟩, hssl⟩, htype⟩ := hcam
      rw [List.foldl_cons, List.foldl_cons]
      apply ih cs2 t t2 _ _ hcams
      rw [← hname]
      exact regProj_dictInsert acc acc2 hp c.name
        (mkDahuaCamera c t) (mkDahuaCamera c2 t2) hname hhost hport

theorem ensureClient_useBasic (s : TransportState) :
    (ensureClient s).useBasic = s.useBasic := by
  unfold ensureClient
  split
  · rfl
  · rfl

theorem ensureClient_origin (s : TransportState) :
    (ensureClient s).origin = s.origin := by
  unfold ensureClient
  split
  · rfl
  · rfl

theorem transportGet_basic_mono (respond : AuthScheme → Nat)
    (s : TransportState) (h : s.useBasic = true) :
    (transportGet respond s).2.1.useBasic = true := by
  unfold transportGet
  have h1 : (ensureClient s).useBasic = true := (ensureClient_useBasic s).trans h
  simp only [h1]
  split
  · exact h1
  · split
    · exact h1
    · exact h1

theorem runRequests_basic_mono (responds : List (AuthScheme → Nat)) :
    ∀ s : TransportState, s.useBasic = true →
      (runRequests responds s).useBasic = true := by
  induction responds with
  | nil => intro s h; exact h
  | cons r rs ih =>
    intro s h
    exact ih _ (transportGet_basic_mono r s h)

/-! ## Claim theorems -/

/-- Claim C6, counterexample: `parse_dahua_response` does not equal the
reference definition exactly as the claim words it, because the code strips
the noise prefix `table.` from the key while the claim's reference keeps the
whole left side of the first `=` as the key; they disagree on the input
`table.A=1`. -/
theorem parse_response_claim_reference_cex :
    parse_dahua_response "table.A=1" ≠ parseResponseClaim "table.A=1" := by
  decide

/-- Claim C6, amended: `parse_dahua_response` equals the claim's reference
definition once the reference also strips one noise prefix (`table.` or
`status.`) from the key of each `key=value` line: split on line boundaries,
trim each line, skip blanks, split a `=` line at the first `=` (prefix
stripped from the key), store a bare line as both key and value; later
duplicate keys overwrite earlier ones, insertion order follows line order
(first occurrence); empty or all-blank input yields the empty mapping, and
the function is total. -/
theorem parse_response_eq_amended_reference (text : String) :
    parse_dahua_response text = parseResponseAmended text := by
  have h1 := parseFold_eq (pySplitlines (pyStrip text)) []
  have hfun : parseLine = lineEntryAmended := funext parseLine_eq_lineEntryAmended
  unfold parse_dahua_response
  rw [h1, hfun, dictFold_eq_collapseSpec]
  rfl

/-- Claim C7: a key beginning with `table.` or `status.` has exactly one
occurrence of the first matching prefix stripped, never recursively: for
every remainder `k` the stripped key is exactly `k` (even when `k` itself
starts with a noise prefix), and the two concrete examples parse as the
claim states. -/
theorem strip_noise_single_strip :
    (∀ k : String, stripNoise ("table." ++ k) = k) ∧
    (∀ k : String, stripNoise ("status." ++ k) = k) ∧
    parse_dahua_response "table.General.MachineName=Cam4"
      = [("General.MachineName", "Cam4")] ∧
    parse_dahua_response "status.status.Speaker=Off"
      = [("status.Speaker", "Off")] :=
  ⟨stripNoise_table, stripNoise_status, by decide, by decide⟩

/-- Claim C8: `parse_bool` returns the default on `None`; on a string it
ignores the default, trims, case-folds, and returns true exactly on
membership in the truthy set; `false`, `0` and garbage yield false; the
function is total (it is a Lean function). -/
theorem parse_bool_spec :
    (∀ d : Bool, parse_bool none d = d) ∧
    (∀ (s : String) (d1 d2 : Bool),
      parse_bool (some s) d1 = parse_bool (some s) d2) ∧
    (∀ (s : String) (d : Bool),
      parse_bool (some s) d = true ↔ pyCasefold (pyStrip s) ∈ TRUTHY_VALUES) ∧
    parse_bool (some "  TRUE ") false = true ∧
    parse_bool (some "yes") false = true ∧
    parse_bool (some "oN") false = true ∧
    parse_bool (some " 1 ") false = true ∧
    parse_bool (some "false") true = false ∧
    parse_bool (some "0") true = false ∧
    parse_bool (some "garbage") true = false := by
  refine ⟨fun d => rfl, fun s d1 d2 => rfl, fun s d => ?_, by decide, by decide,
    by decide, by decide, by decide, by decide, by decide⟩
  show TRUTHY_VALUES.contains (pyCasefold (pyStrip s)) = true ↔ _
  simp

/-- Claim C10: no whitespace is trimmed next to the first `=`: a trimmed
line `k=v` whose key part has no `=` parses to exactly the key (modulo one
noise-prefix strip) and exactly the value, whitespace included, and the
concrete line `k = v` yields key `k ` (trailing space) and value ` v`
(leading space). -/
theorem parse_preserves_whitespace_around_eq :
    (∀ k v : String, k.data.contains '=' = false →
      pyStrip (k ++ "=" ++ v) = k ++ "=" ++ v →
      parseLine (k ++ "=" ++ v) = some (stripNoise k, v)) ∧
    parse_dahua_response "k = v" = [("k ", " v")] := by
  constructor
  · intro k v hk hstrip
    have hdata : (k ++ "=" ++ v).data = k.data ++ '=' :: v.data := by
      rw [String.data_append, String.data_append]
      simp
    have hne : ¬ (k ++ "=" ++ v) = "" := by
      intro he
      have hl := congrArg List.length hdata
      rw [he] at hl
      have h0 : (("" : String).data).length = 0 := rfl
      rw [h0] at hl
      simp [List.length_append] at hl
      omega
    simp only [parseLine]
    rw [hstrip, if_neg hne, hdata, splitFirstEq_no_eq k.data v.data hk]
  · decide

/-- Witness for C10 at the concrete input of the claim. -/
theorem parse_preserves_whitespace_around_eq_witness :
    parseLine ("k " ++ "=" ++ " v") = some (stripNoise "k ", " v") :=
  parse_preserves_whitespace_around_eq.1 "k " " v" (by decide) (by decide)

/-- Claim C3: with distinct configured names, `list_cameras` returns exactly
one `{name, host, port}` record per configured camera, in registration
order (the record type has no credential fields); and two configurations
differing only in usernames and passwords produce identical output. -/
theorem list_cameras_excludes_credentials (cfg : DahuaConfig) :
    ((cfg.cameras.map CameraConfig.name).Nodup →
      list_cameras cfg = cfg.cameras.map (fun c => ⟨c.name, c.host, c.port⟩)) ∧
    (∀ cfg2 : DahuaConfig, cfgEqButCreds cfg cfg2 = true →
      list_cameras cfg = list_cameras cfg2) := by
  constructor
  · intro h
    unfold list_cameras
    rw [managerCameras_of_nodup cfg h, List.map_map]
    rfl
  · intro cfg2 heq
    rw [cfgEqButCreds, Bool.and_eq_true] at heq
    obtain ⟨ht, hcams⟩ := heq
    have hreg : regProj (managerCameras cfg) = regProj (managerCameras cfg2) :=
      regProj_fold cfg.cameras cfg2.cameras cfg.timeout cfg2.timeout [] []
        hcams rfl
    have h1 : list_cameras cfg = (regProj (managerCameras cfg)).map Prod.snd := by
      unfold list_cameras regProj
      rw [List.map_map]
      rfl
    have h2 : list_cameras cfg2 =
        (regProj (managerCameras cfg2)).map Prod.snd := by
      unfold list_cameras regProj
      rw [List.map_map]
      rfl
    rw [h1, h2, hreg]

/-- Witness for C3 at a concrete two-camera configuration and its
credentials-only variation. -/
theorem list_cameras_excludes_credentials_witness :
    list_cameras cfgW = cfgW.cameras.map (fun c => ⟨c.name, c.host, c.port⟩) ∧
    list_cameras cfgW = list_cameras cfgW2 :=
  ⟨(list_cameras_excludes_credentials cfgW).1 (by decide),
   (list_cameras_excludes_credentials cfgW).2 cfgW2 (by decide)⟩

/-- Claim C5: `get_camera` is an exact, case-sensitive lookup: it finds a
camera exactly when the name is configured, and otherwise raises with a
message listing the registry's names sorted (the sorted list is ordered
under the lexicographic code-point order and is a permutation of the
registry's key set, which contains exactly the configured names). -/
theorem get_camera_lookup_spec (cfg : DahuaConfig) (name : String) :
    ((∃ cam, get_camera cfg name = .found cam) ↔
      name ∈ cfg.cameras.map CameraConfig.name) ∧
    (name ∉ cfg.cameras.map CameraConfig.name →
      get_camera cfg name = .notFound ("Camera '" ++ name
        ++ "' not found. Available cameras: "
        ++ joinComma (pySorted (dictKeys (managerCameras cfg))))) ∧
    (pySorted (dictKeys (managerCameras cfg))).Pairwise
      (fun a b => strLe a b = true) ∧
    (pySorted (dictKeys (managerCameras cfg))).Perm
      (dictKeys (managerCameras cfg)) ∧
    (∀ n, n ∈ dictKeys (managerCameras cfg) ↔
      n ∈ cfg.cameras.map CameraConfig.name) := by
  refine ⟨?_, ?_, pySorted_pairwise _, pySorted_perm _,
    fun n => mem_managerKeys cfg n⟩
  · constructor
    · rintro ⟨cam, hcam⟩
      unfold get_camera at hcam
      cases hl : dictLookup (managerCameras cfg) name with
      | none =>
        rw [hl] at hcam
        exact CameraLookup.noConfusion hcam
      | some c =>
        have hmem : name ∈ dictKeys (managerCameras cfg) := by
          by_contra hmem
          rw [(dictLookup_eq_none_iff _ _).mpr hmem] at hl
          cases hl
        exact (mem_managerKeys cfg name).mp hmem
    · intro hmem
      have hmem2 : name ∈ dictKeys (managerCameras cfg) :=
        (mem_managerKeys cfg name).mpr hmem
      cases hl : dictLookup (managerCameras cfg) name with
      | none => exact absurd hmem2 ((dictLookup_eq_none_iff _ _).mp hl)
      | some c =>
        refine ⟨c, ?_⟩
        unfold get_camera
        rw [hl]
  · intro hmem
    have hmem2 : name ∉ dictKeys (managerCameras cfg) :=
      fun hc => hmem ((mem_managerKeys cfg name).mp hc)
    unfold get_camera
    rw [(dictLookup_eq_none_iff _ _).mpr hmem2]

/-- Witness for C5: looking up an unknown name on the concrete fixture
raises with the sorted-list message. -/
theorem get_camera_lookup_spec_witness :
    get_camera cfgW "unknown" = .notFound ("Camera '" ++ "unknown"
      ++ "' not found. Available cameras: "
      ++ joinComma (pySorted (dictKeys (managerCameras cfgW)))) :=
  (get_camera_lookup_spec cfgW "unknown").2.1 (by decide)

/-- Claim C4, counterexample: closing stops at the first failure — with two
registered cameras where closing the first raises, the second camera's
close is never attempted, and the exception propagates instead of an
aggregated outcome. -/
theorem close_all_not_best_effort_cex :
    "back-yard" ∈ (managerCameras cfgW).map Prod.fst ∧
    "back-yard" ∉
      (close_all (fun n => n == "front-door") (managerCameras cfgW)).2 ∧
    (close_all (fun n => n == "front-door") (managerCameras cfgW)).1
      = some "front-door" := by
  decide

/-- Claim C4 (amended): `close_all` closes transports in registration order
only up to (and including) the first failing close; that failure propagates
to the caller as the raised exception, transports after it are not
attempted, and no aggregated outcome is produced. -/
theorem close_all_stops_at_first_failure (fails : String → Bool)
    (reg : List (String × DahuaCamera)) :
    (close_all fails reg).1 = (reg.map Prod.fst).find? fails ∧
    (close_all fails reg).2 =
      (reg.map Prod.fst).takeWhile (fun n => ! fails n)
        ++ ((reg.map Prod.fst).find? fails).toList := by
  induction reg with
  | nil => exact ⟨rfl, rfl⟩
  | cons p rest ih =>
    obtain ⟨n, cam⟩ := p
    cases hf : fails n with
    | true => simp [close_all, hf]
    | false => simp [close_all, hf, ih.1, ih.2]

/-- Claim C1 (spec-modelled): a transport in Digest mode (the Basic flag
unset — in particular a fresh one) that receives a 401 issues exactly the
two attempts Digest-then-Basic (one retry of the same request with Basic
credentials), keeps the same origin, returns the retry's response when it
is 2xx, and is in Basic mode for every subsequent request of its
lifetime. -/
theorem digest_fallback_on_401 (respond : AuthScheme → Nat)
    (s : TransportState) (hd : s.useBasic = false)
    (h401 : respond .digest = 401) :
    (transportGet respond s).2.2 = [.digest, .basic] ∧
    (transportGet respond s).2.1.useBasic = true ∧
    (transportGet respond s).2.1.origin = s.origin ∧
    (is2xx (respond .basic) = true →
      (transportGet respond s).1 = .ok (respond .basic)) ∧
    (∀ responds, (runRequests responds
      (transportGet respond s).2.1).useBasic = true) := by
  have hb : (ensureClient s).useBasic = false := (ensureClient_useBasic s).trans hd
  have hcs : currentScheme (ensureClient s) = .digest := by
    unfold currentScheme
    rw [hb]
    rfl
  simp only [transportGet]
  rw [hcs, h401, if_pos rfl, hb, if_neg Bool.false_ne_true]
  by_cases hc1 : respond .basic = 401
  · rw [if_pos hc1]
    refine ⟨rfl, rfl, ensureClient_origin s, ?_, ?_⟩
    · intro h2
      rw [hc1] at h2
      exact absurd h2 (by decide)
    · intro responds
      exact runRequests_basic_mono responds _ rfl
  · rw [if_neg hc1]
    by_cases hc2 : is2xx (respond .basic) = true
    · rw [if_pos hc2]
      exact ⟨rfl, rfl, ensureClient_origin s, fun _ => rfl,
        fun responds => runRequests_basic_mono responds _ rfl⟩
    · rw [if_neg hc2]
      exact ⟨rfl, rfl, ensureClient_origin s, fun h2 => absurd h2 hc2,
        fun responds => runRequests_basic_mono responds _ rfl⟩

/-- Witness for C1: a fresh transport against a camera answering 401 to
Digest and 200 to Basic issues exactly the Digest attempt and one Basic
retry. -/
theorem digest_fallback_on_401_witness :
    (transportGet (fun a => match a with | .digest => 401 | .basic => 200)
      ⟨"http://cam:80", false, false⟩).2.2 = [.digest, .basic] :=
  (digest_fallback_on_401 _ _ rfl rfl).1

/-- Claim C2 (spec-modelled): a transport already in Basic mode that
receives a 401 fails immediately with an AuthenticationError carrying the
status, after a single attempt and with no scheme change; and the transport
never leaves Basic mode again — any sequence of later requests, and
closing, keeps the Basic flag set. -/
theorem basic_401_terminal (respond : AuthScheme → Nat) (s : TransportState)
    (hb : s.useBasic = true) (h401 : respond .basic = 401) :
    (transportGet respond s).1 = .error (.auth 401) ∧
    (transportGet respond s).2.2 = [.basic] ∧
    (transportGet respond s).2.1.useBasic = true ∧
    (closeTransport s).useBasic = true ∧
    (∀ responds, (runRequests responds s).useBasic = true) := by
  have hb1 : (ensureClient s).useBasic = true := (ensureClient_useBasic s).trans hb
  have hcs : currentScheme (ensureClient s) = .basic := by
    unfold currentScheme
    rw [hb1]
    rfl
  simp only [transportGet]
  rw [hcs, h401, if_pos rfl, if_pos hb1]
  exact ⟨rfl, rfl, hb1, hb, fun responds => runRequests_basic_mono responds s hb⟩

/-- Witness for C2: a transport with the Basic flag set, against a camera
that always answers 401, fails with the AuthenticationError. -/
theorem basic_401_terminal_witness :
    (transportGet (fun _ => 401) ⟨"http://cam:80", true, true⟩).1
      = .error (.auth 401) :=
  (basic_401_terminal _ _ rfl rfl).1

/-- Claim C9: when the startFind response yields no usable token (none, or
an empty one) the search returns the protocol-error result with the raw
response attached, whatever `doFind`/`stopFind` do (neither is consulted);
when a token is found and `doFind` succeeds, the `doFind` result is
returned and is independent of `stopFind`, so a failing cleanup never
propagates. -/
theorem search_logs_token_and_cleanup :
    (∀ (startResp : String)
      (doFind : String → Except String (List (String × String)))
      (stopFind : String → Except String Unit),
      (extractToken startResp = none ∨ extractToken startResp = some "") →
      searchLogs startResp doFind stopFind =
        .noToken "Failed to start log search — no token returned" startResp) ∧
    (∀ (startResp t : String) (found : List (String × String))
      (doFind : String → Except String (List (String × String)))
      (stopFind stopFind2 : String → Except String Unit),
      extractToken startResp = some t → ¬ t = "" → doFind t = .ok found →
      searchLogs startResp doFind stopFind = .entries found ∧
      searchLogs startResp doFind stopFind
        = searchLogs startResp doFind stopFind2) := by
  constructor
  · rintro startResp doFind stopFind (h | h)
    · unfold searchLogs
      rw [h]
    · unfold searchLogs
      rw [h]
      rfl
  · intro startResp t found doFind stopFind stopFind2 ht hne hdo
    have h1 : searchLogs startResp doFind stopFind = .entries found := by
      unfold searchLogs
      rw [ht]
      simp [hne, hdo]
    have h2 : searchLogs startResp doFind stopFind2 = .entries found := by
      unfold searchLogs
      rw [ht]
      simp [hne, hdo]
    exact ⟨h1, h1.trans h2.symm⟩

/-- Witness for C9: a startFind response with a token, a succeeding doFind,
and a failing stopFind still return the doFind result, equal to the run
with a succeeding stopFind. -/
theorem search_logs_token_and_cleanup_witness :
    searchLogs "token=abc123\nOK" (fun _ => .ok [("items[0].Type", "Login")])
      (fun _ => .error "boom") = .entries [("items[0].Type", "Login")] ∧
    searchLogs "token=abc123\nOK" (fun _ => .ok [("items[0].Type", "Login")])
      (fun _ => .error "boom")
      = searchLogs "token=abc123\nOK"
        (fun _ => .ok [("items[0].Type", "Login")]) (fun _ => .ok ()) :=
  search_logs_token_and_cleanup.2 "token=abc123\nOK" "abc123"
    [("items[0].Type", "Login")] _ _ _ (by decide) (by decide) rfl

example : parse_dahua_response "key1=value1\nkey2=value2" =
    [("key1", "value1"), ("key2", "value2")] := by decide

example : parse_dahua_response "table.General.MachineName=Cam4" =
    [("General.MachineName", "Cam4")] := by decide

example : parse_dahua_response "status.status.Speaker=Off" =
    [("status.Speaker", "Off")] := by decide

example : parse_dahua_response "key=value=with=equals" =
    [("key", "value=with=equals")] := by decide

example : parse_dahua_response "OK" = [("OK", "OK")] := by decide

example : parse_dahua_response "" = [] := by decide

example : parse_dahua_response "\nkey1=value1\n\nkey2=value2\n" =
    [("key1", "value1"), ("key2", "value2")] := by decide

example : parse_dahua_response "a=1\nb=2\na=3" = [("a", "3"), ("b", "2")] := by
  decide

example : parse_dahua_response "k = v" = [("k ", " v")] := by decide

example : parse_bool (some "  TRUE  ") false = true := by decide

example : parse_bool (some "garbage") true = false := by decide

end DahuaMCP
